import Mathlib

/-!
Verification development for `src/script/technical-interview-042022.py`,
a script that joins wildfire detection points against country boundary
polygons and writes three CSV reports (per-country count and maximum
confidence, per-fire average distance to the other fires, fires within a
fixed distance of a border).

The script delegates every geometric operation to an external
geoprocessing library (arcpy).  Following the program structure, the
geometric capabilities (point-in-polygon containment, planar point-point
distance, polygon-to-line conversion, point-line distance) are modelled
as an abstract `GeoEngine`; the orchestration, aggregation, selection and
CSV-writing logic of the script itself is embedded concretely.
-/

namespace FireScript

/-- The external geoprocessing capability the script consumes.
`P` is the type of point geometries, `B` of polygon geometries, `L` of
line geometries.  `contains b p` is the spatial containment test used by
`SelectLayerByLocation` (`WITHIN` / `CONTAINS`), `distPP` the planar
point-to-point distance used by `GenerateNearTable` (planar method),
`toLine` the `PolygonToLine_management` conversion, and `distPL` the
planar point-to-line distance underlying `WITHIN_A_DISTANCE`. -/
structure GeoEngine (P B L : Type) where
  contains : B → P → Bool
  distPP : P → P → ℚ
  toLine : B → L
  distPL : P → L → ℚ

/-- A fire record from the input CSV after `XYTableToPoint` and
`Project`: a point geometry, the value of the confidence field, and the
full (non-required) attribute row as written by the reports. -/
structure Fire (P : Type) where
  geom : P
  conf : ℚ
  attrs : List String
deriving DecidableEq

/-- A country boundary feature: the value of the boundary identifier
field (`COUNTRY`) and a polygon geometry. -/
structure Bnd (B : Type) where
  country : String
  geom : B
deriving DecidableEq

/-- The fire points spatially contained in boundary `b`
(the per-polygon point set used by `SummarizeWithin_analysis`). -/
def firesIn {P B L : Type} (e : GeoEngine P B L) (b : Bnd B)
    (fires : List (Fire P)) : List (Fire P) :=
  fires.filter (fun f => e.contains b.geom f.geom)

/-- Whether a fire point lies within at least one boundary polygon. -/
def withinAny {P B L : Type} (e : GeoEngine P B L) (bnds : List (Bnd B))
    (f : Fire P) : Bool :=
  bnds.any (fun b => e.contains b.geom f.geom)

/-- The alignment check of the script
(inverted `SelectLayerByLocation` with the WITHIN relation, followed by
`GetCount`): the number of fire points falling
outside every boundary polygon. -/
def checkCnt {P B L : Type} (e : GeoEngine P B L) (fires : List (Fire P))
    (bnds : List (Bnd B)) : Nat :=
  (fires.filter (fun f => bnds.all (fun b => ! e.contains b.geom f.geom))).length

/-- The selection `SelectLayerByLocation(in_bnd, CONTAINS, fires_pnt)`: the boundary
polygons that contain at least one fire point. -/
def bndWithFire {P B L : Type} (e : GeoEngine P B L) (fires : List (Fire P))
    (bnds : List (Bnd B)) : List (Bnd B) :=
  bnds.filter (fun b => fires.any (fun f => e.contains b.geom f.geom))

/-- Maximum of a list of rationals, `none` on the empty list (the MAX
statistic of `SummarizeWithin` / `Statistics_analysis`, which is null on
an empty group). -/
def listMax : List ℚ → Option ℚ
  | [] => none
  | x :: xs => some (xs.foldl max x)

/-- Minimum of a list of rationals, `none` on the empty list. -/
def listMin : List ℚ → Option ℚ
  | [] => none
  | x :: xs => some (xs.foldl min x)

/-- One output row of `SummarizeWithin_analysis(bnd_w_fire, fires_pnt,
sum_fields=[[conf_lvl,`MAX`]])`: the boundary identifier value, the
`Point_Count` field and the `max_<conf>` field of one polygon. -/
structure SumRow where
  country : String
  pointCount : Nat
  maxConf : Option ℚ
deriving DecidableEq

/-- The result of `SummarizeWithin_analysis` over the selected boundaries: one row per
polygon containing at least one fire, carrying the number of contained
points and their maximum confidence. -/
def sumWithin {P B L : Type} (e : GeoEngine P B L) (fires : List (Fire P))
    (bnds : List (Bnd B)) : List SumRow :=
  (bndWithFire e fires bnds).map (fun b =>
    ⟨b.country, (firesIn e b fires).length,
      listMax ((firesIn e b fires).map Fire.conf)⟩)

/-- One output row of `Statistics_analysis(sum_within, ...,
[[`Point_Count`,`SUM`], [`max_<conf>`,`MAX`]], case_field=bnd_id)`. -/
structure StatRow where
  country : String
  sumCount : Nat
  maxMax : Option ℚ
deriving DecidableEq

/-- The result of `Statistics_analysis` grouped by the boundary identifier: for each
distinct identifier value among the summarized polygons, the sum of the
point counts and the maximum of the per-polygon maxima. -/
def statTab {P B L : Type} (e : GeoEngine P B L) (fires : List (Fire P))
    (bnds : List (Bnd B)) : List StatRow :=
  let sw := sumWithin e fires bnds
  ((sw.map SumRow.country).dedup).map (fun c =>
    let grp := sw.filter (fun r => r.country == c)
    ⟨c, (grp.map SumRow.pointCount).sum, listMax (grp.filterMap SumRow.maxConf)⟩)

/-- The total of the `Count` column of the country-summary report. -/
def totalCount {P B L : Type} (e : GeoEngine P B L) (fires : List (Fire P))
    (bnds : List (Bnd B)) : Nat :=
  ((statTab e fires bnds).map StatRow.sumCount).sum

/-- The near table `GenerateNearTable_analysis(pnts, pnts, closest=ALL,
method=PLANAR)`: one row `(IN_FID, NEAR_FID, NEAR_DIST)` for every
ordered pair of distinct features (a feature is never paired with
itself). -/
def nearTable {P B L : Type} (e : GeoEngine P B L) (pnts : List (Fire P)) :
    List (Nat × Nat × ℚ) :=
  pnts.enum.flatMap (fun a =>
    (pnts.enum.filter (fun bp => bp.1 ≠ a.1)).map (fun bp =>
      (a.1, bp.1, e.distPP a.2.geom bp.2.geom)))

/-- Mean of a list of rationals, `none` on the empty list (the MEAN
statistic, null on an empty group). -/
def meanOpt (l : List ℚ) : Option ℚ :=
  if l = [] then none else some (l.sum / l.length)

/-- The statistic `Statistics_analysis(near, ..., NEAR_DIST MEAN, IN_FID)`
followed by `JoinField` on `OBJECTID = IN_FID`: the joined
`MEAN_NEAR_DIST` value of the feature with id `i` (null when the near
table has no row for `i`). -/
def meanNearDist {P B L : Type} (e : GeoEngine P B L) (pnts : List (Fire P))
    (i : Nat) : Option ℚ :=
  meanOpt (((nearTable e pnts).filter (fun r => r.1 == i)).map (fun r => r.2.2))

/-- The rows of the average-distance report: one row per fire point, in
input order, carrying the point's attributes and its joined
`MEAN_NEAR_DIST` value. -/
def avgDistReportRows {P B L : Type} (e : GeoEngine P B L)
    (pnts : List (Fire P)) : List (List String × Option ℚ) :=
  pnts.enum.map (fun a => (a.2.attrs, meanNearDist e pnts a.1))

/-- The helper `getFiresWithinDistToBorder(pnts, bnds, dist=5, unit=KILOMETERS)`:
convert the boundaries to lines (`PolygonToLine_management`) and select
the points within the given distance of any line
(`SelectLayerByLocation` with the WITHIN_A_DISTANCE relation at the given
distance, a closed-interval comparison). -/
def getFiresWithinDistToBorder {P B L : Type} (e : GeoEngine P B L)
    (pnts : List (Fire P)) (bnds : List (Bnd B))
    (dist : ℚ := 5) : List (Fire P) :=
  let bnd_lines := bnds.map (fun b => e.toLine b.geom)
  pnts.filter (fun p => bnd_lines.any (fun l => decide (e.distPL p.geom l ≤ dist)))

/-- Python `str.title()`: each alphabetic character that follows a
non-alphabetic character (or starts the string) is uppercased, every
other alphabetic character is lowercased. -/
def pyTitleAux : Bool → List Char → List Char
  | _, [] => []
  | prevAlpha, c :: cs =>
    (if c.isAlpha then (if prevAlpha then c.toLower else c.toUpper) else c)
      :: pyTitleAux c.isAlpha cs

/-- Python `str.title()` on a string. -/
def pyTitle (s : String) : String := ⟨pyTitleAux false s.data⟩

/-- Python `str.lower()` on a string (ASCII). -/
def pyLower (s : String) : String := s.map Char.toLower

/-- A text encoding.  opening a file for writing in the script passes
no `encoding` argument, so Python uses the platform's preferred locale
encoding. -/
inductive Encoding where
  | utf8
  | cp1252
  | other (name : String)
deriving DecidableEq

/-- The content of a written CSV file: the encoding it was opened with
and its rows (each row a list of cell values). -/
structure FileContent where
  enc : Encoding
  rows : List (List String)
deriving DecidableEq

/-- The file system: a map from paths to file contents. -/
def Files : Type := String → Option FileContent

/-- The empty file system. -/
def emptyFs : Files := fun _ => none

/-- Writing a file: `open(path, `w`)` truncates/creates, so the previous
content at the path (if any) is replaced. -/
def updateFile (fs : Files) (p : String) (c : FileContent) : Files :=
  fun q => if q = p then some c else fs q

/-- The function `writeCSV(out_csv, csv_cols, in_tab, scur_flds)` of the script:
open the destination for writing (truncating any existing file, in the
locale's preferred encoding since no encoding is passed), write the
header row, then one row per record of the cursor, in cursor order.
`in_tab` models the rows yielded by
`arcpy.da.SearchCursor(in_tab, scur_flds)`. -/
def writeCSV (locale : Encoding) (fs : Files) (out_csv : String)
    (csv_cols : List String) (in_tab : List (List String)) : Files :=
  updateFile fs out_csv ⟨locale, csv_cols :: in_tab⟩

/-- Path of the country-summary report:
`out_path` joined with `MODIS_fires_countByCountry_<today>.csv`. -/
def summaryPath (out_path today : String) : String :=
  out_path ++ "\\MODIS_fires_countByCountry_" ++ today ++ ".csv"

/-- Path of the average-distance report:
`out_path` joined with `MODIS_fires_avgDistToAllFires_<today>.csv`. -/
def avgPath (out_path today : String) : String :=
  out_path ++ "\\MODIS_fires_avgDistToAllFires_" ++ today ++ ".csv"

/-- Path of the near-border report:
`out_path` joined with `MODIS_fires_<dist><Unit>ToBorders_<today>.csv`. -/
def nearPath (out_path today distStr unit : String) : String :=
  out_path ++ "\\MODIS_fires_" ++ distStr ++ pyTitle unit ++ "ToBorders_"
    ++ today ++ ".csv"

/-- A report the pipeline asks `writeCSV` to produce: destination path,
header row, and data rows. -/
structure ReportSpec where
  path : String
  cols : List String
  rows : List (List String)
deriving DecidableEq

/-- A cell value as the `csv` module writes it: `None` (a null field)
becomes the empty string, numbers are stringified. -/
def optValStr : Option ℚ → String
  | none => ""
  | some q => toString q

/-- Header of the country-summary report, from
`rename`: the title-cased boundary identifier, then `Count`, then `Max`
plus the title-cased confidence field name;
the header is the value list of the rename dictionary of the script. -/
def summaryHeader (bnd_id conf_lvl : String) : List String :=
  [pyTitle bnd_id, "Count", "Max " ++ pyTitle conf_lvl]

/-- The country-summary report of the pipeline. -/
def summaryReport {P B L : Type} (e : GeoEngine P B L) (fires : List (Fire P))
    (bnds : List (Bnd B)) (bnd_id conf_lvl out_path today : String) : ReportSpec :=
  ⟨summaryPath out_path today, summaryHeader bnd_id conf_lvl,
    (statTab e fires bnds).map (fun r =>
      [r.country, toString r.sumCount, optValStr r.maxMax])⟩

/-- Header of the average-distance report: the fields of the layer after
the `MEAN_NEAR_DIST` join, with `MEAN_NEAR_DIST` displayed under the
label the script substitutes for it. -/
def avgHeader (flds : List String) : List String :=
  (flds ++ ["MEAN_NEAR_DIST"]).map (fun x =>
    if x == "MEAN_NEAR_DIST" then "Average Dist. to All Other Fires (meters)" else x)

/-- The average-distance report of the pipeline (`getAvgDistToFires`). -/
def avgReport {P B L : Type} (e : GeoEngine P B L) (pnts : List (Fire P))
    (flds : List String) (out_path today : String) : ReportSpec :=
  ⟨avgPath out_path today, avgHeader flds,
    (avgDistReportRows e pnts).map (fun r => r.1 ++ [optValStr r.2])⟩

/-- The near-border report of the pipeline
(`getFiresWithinDistToBorder(fires_pnt, bnd_w_fire)` with the default
distance 5 and unit ``KILOMETERS``); by the time it is written the
joined `MEAN_NEAR_DIST` field has been deleted again, so the columns are
the original fields. -/
def nearReport {P B L : Type} (e : GeoEngine P B L) (fires : List (Fire P))
    (bnds : List (Bnd B)) (flds : List String) (out_path today : String) : ReportSpec :=
  ⟨nearPath out_path today ("5") ("KILOMETERS"), flds,
    (getFiresWithinDistToBorder e fires (bndWithFire e fires bnds) 5).map Fire.attrs⟩

/-- A log level of the `logging` module as configured by the script. -/
inductive Level where
  | info
  | warning
  | error
deriving DecidableEq

/-- The warning lines of the alignment check: emitted exactly when some
fire point falls outside every boundary polygon. -/
def warnLines {P B L : Type} (e : GeoEngine P B L) (fires : List (Fire P))
    (bnds : List (Bnd B)) : List (Level × String) :=
  if 0 < checkCnt e fires bnds then
    [(Level.warning, toString (checkCnt e fires bnds)
        ++ " point(s) fall outside of boundaries!"),
     (Level.warning, "These data will not be included when summing by intersection!")]
  else []

/-- The orchestration `getFiresByCountry(in_csv, x, y, conf_lvl, in_bnd, bnd_id,
out_path, findAvgDist, findNearBorder)`: the reports it writes, in the order it
writes them, together with the log lines it emits.  The country summary
is produced unconditionally; the average-distance and near-border
reports only under their flags. -/
def getFiresByCountry {P B L : Type} (e : GeoEngine P B L)
    (fires : List (Fire P)) (bnds : List (Bnd B))
    (bnd_id conf_lvl : String) (flds : List String) (out_path today : String)
    (findAvgDist : Bool := true) (findNearBorder : Bool := true) :
    List ReportSpec × List (Level × String) :=
  let reports :=
    [summaryReport e fires bnds bnd_id conf_lvl out_path today]
    ++ (if findAvgDist then [avgReport e fires flds out_path today] else [])
    ++ (if findNearBorder then [nearReport e fires bnds flds out_path today] else [])
  let logs :=
    [(Level.info, "Converting rows to points...")]
    ++ warnLines e fires bnds
    ++ [(Level.info, "Finding boundary shapes containing points..."),
        (Level.info, "Finding point count and maximum confidence level by boundary..."),
        (Level.info, "Summarizing by " ++ bnd_id),
        (Level.info, "Clean up..."),
        (Level.info, "Creating output CSV...")]
    ++ (if findAvgDist then
          [(Level.info, "Finding average distance to all fires..."),
           (Level.info, "Finding distances to all fires..."),
           (Level.info, "Averaging distances..."),
           (Level.info, "Joining avergae distance..."),
           (Level.info, "Creating output CSV..."),
           (Level.info, "Clean up...")] else [])
    ++ (if findNearBorder then
          [(Level.info, "Finding fires within a distance to a border..."),
           (Level.info, "Converting boundaries to lines..."),
           (Level.info, "Finding points within 5 kilometers to a border..."),
           (Level.info, "Creating output CSV...")] else [])
  (reports, logs)

/-- An exception escaping the orchestration: a `PermissionError` (file
locked / access denied while opening an output CSV) or any other
exception, each carrying its message. -/
inductive Exc where
  | permissionError (msg : String)
  | otherExc (msg : String)
deriving DecidableEq

/-- Write the reports in order with no failures (each write replaces any
existing file at its path). -/
def applyReports (locale : Encoding) (rs : List ReportSpec) (fs : Files) : Files :=
  rs.foldl (fun acc r => writeCSV locale acc r.path r.cols r.rows) fs

/-- Write the reports in order; `failAt` tells whether opening a given
path raises an exception.  A raised exception aborts the remaining
writes immediately, leaving the file system as it was at that moment
(the failed open truncates nothing). -/
def runReports (failAt : String → Option Exc) (locale : Encoding) (fs : Files) :
    List ReportSpec → Except (Exc × Files) Files
  | [] => .ok fs
  | r :: rest =>
    match failAt r.path with
    | some ex => .error (ex, fs)
    | none => runReports failAt locale (writeCSV locale fs r.path r.cols r.rows) rest

/-- The log separator line written at the end of every run. -/
def sepLine : String :=
  "---------------------------------------------------------\n"

/-- The `__main__` block's exception boundary: run the report writes;
on `PermissionError` log the specific remediation hints, on any other
exception log it generically; in every case finish with the
``Finished run`` line and the separator, and keep whatever files were
already written (no cleanup, no retry). -/
def mainRun (failAt : String → Option Exc) (locale : Encoding) (fs : Files)
    (rs : List ReportSpec) : Files × List (Level × String) :=
  match runReports failAt locale fs rs with
  | .ok fs' =>
    (fs', [(Level.info, "Finished run"), (Level.info, sepLine)])
  | .error (.permissionError m, fs') =>
    (fs', [(Level.error, "PERMISSION ERROR"), (Level.error, m),
           (Level.error, "Ensure all previously created CSVs are closed!"),
           (Level.error,
             "Check that supporting data is not open in another program (ArcGIS Pro/Map/Catalog)!"),
           (Level.info, "Finished run"), (Level.info, sepLine)])
  | .error (.otherExc m, fs') =>
    (fs', [(Level.error, "EXCEPTION OCCURRED"), (Level.error, m),
           (Level.info, "Finished run"), (Level.info, sepLine)])

/-! ### Auxiliary lemmas about `listMax`, `listMin` and list sums -/

lemma le_foldl_max_init (xs : List ℚ) (x : ℚ) : x ≤ xs.foldl max x := by
  induction xs generalizing x with
  | nil => exact le_refl x
  | cons y ys ih => exact le_trans (le_max_left x y) (ih (max x y))

lemma le_foldl_max_of_mem {xs : List ℚ} {y : ℚ} (h : y ∈ xs) (x : ℚ) :
    y ≤ xs.foldl max x := by
  induction xs generalizing x with
  | nil => cases h
  | cons z zs ih =>
    rcases List.mem_cons.mp h with rfl | hz
    · exact le_trans (le_max_right x y) (le_foldl_max_init zs (max x y))
    · exact ih hz (max x z)

lemma foldl_max_mem (xs : List ℚ) (x : ℚ) :
    xs.foldl max x = x ∨ xs.foldl max x ∈ xs := by
  induction xs generalizing x with
  | nil => exact Or.inl rfl
  | cons z zs ih =>
    rcases ih (max x z) with h | h
    · rcases max_choice x z with hc | hc
      · exact Or.inl (by rw [List.foldl_cons, h, hc])
      · exact Or.inr (by rw [List.foldl_cons, h, hc]; exact List.mem_cons_self z zs)
    · exact Or.inr (List.mem_cons_of_mem z h)

lemma listMax_spec {l : List ℚ} {m : ℚ} :
    listMax l = some m ↔ m ∈ l ∧ ∀ x ∈ l, x ≤ m := by
  constructor
  · intro h
    cases l with
    | nil => cases h
    | cons x xs =>
      have hm : xs.foldl max x = m := by
        simpa [listMax] using h
      subst hm
      refine ⟨?_, ?_⟩
      · rcases foldl_max_mem xs x with h | h
        · rw [h]; exact List.mem_cons_self x xs
        · exact List.mem_cons_of_mem x h
      · intro y hy
        rcases List.mem_cons.mp hy with rfl | hy
        · exact le_foldl_max_init xs y
        · exact le_foldl_max_of_mem hy x
  · rintro ⟨hmem, hub⟩
    cases l with
    | nil => cases hmem
    | cons x xs =>
      have h1 : xs.foldl max x ∈ x :: xs := by
        rcases foldl_max_mem xs x with h | h
        · rw [h]; exact List.mem_cons_self x xs
        · exact List.mem_cons_of_mem x h
      have h2 : m ≤ xs.foldl max x := by
        rcases List.mem_cons.mp hmem with rfl | hm
        · exact le_foldl_max_init xs m
        · exact le_foldl_max_of_mem hm x
      have h3 : xs.foldl max x ≤ m := hub _ h1
      simp [listMax, le_antisymm h3 h2]

lemma listMax_eq_none_iff {l : List ℚ} : listMax l = none ↔ l = [] := by
  cases l <;> simp [listMax]

lemma foldl_min_init_le (xs : List ℚ) (x : ℚ) : xs.foldl min x ≤ x := by
  induction xs generalizing x with
  | nil => exact le_refl x
  | cons y ys ih => exact le_trans (ih (min x y)) (min_le_left x y)

lemma foldl_min_le_of_mem {xs : List ℚ} {y : ℚ} (h : y ∈ xs) (x : ℚ) :
    xs.foldl min x ≤ y := by
  induction xs generalizing x with
  | nil => cases h
  | cons z zs ih =>
    rcases List.mem_cons.mp h with rfl | hz
    · exact le_trans (foldl_min_init_le zs (min x y)) (min_le_right x y)
    · exact ih hz (min x z)

lemma foldl_min_mem (xs : List ℚ) (x : ℚ) :
    xs.foldl min x = x ∨ xs.foldl min x ∈ xs := by
  induction xs generalizing x with
  | nil => exact Or.inl rfl
  | cons z zs ih =>
    rcases ih (min x z) with h | h
    · rcases min_choice x z with hc | hc
      · exact Or.inl (by rw [List.foldl_cons, h, hc])
      · exact Or.inr (by rw [List.foldl_cons, h, hc]; exact List.mem_cons_self z zs)
    · exact Or.inr (List.mem_cons_of_mem z h)

lemma listMin_spec {l : List ℚ} {m : ℚ} :
    listMin l = some m → m ∈ l ∧ ∀ x ∈ l, m ≤ x := by
  intro h
  cases l with
  | nil => cases h
  | cons x xs =>
    have hm : xs.foldl min x = m := by
      simpa [listMin] using h
    subst hm
    refine ⟨?_, ?_⟩
    · rcases foldl_min_mem xs x with h | h
      · rw [h]; exact List.mem_cons_self x xs
      · exact List.mem_cons_of_mem x h
    · intro y hy
      rcases List.mem_cons.mp hy with rfl | hy
      · exact foldl_min_init_le xs y
      · exact foldl_min_le_of_mem hy x

lemma countP_eq_sum_map {α : Type} (p : α → Bool) (l : List α) :
    l.countP p = (l.map (fun x => if p x then 1 else 0)).sum := by
  induction l with
  | nil => rfl
  | cons a t ih =>
    rw [List.countP_cons, List.map_cons, List.sum_cons, ih]
    by_cases h : p a = true <;> simp [h, Nat.add_comm]

lemma sum_if_single {c0 : String} {w : ℕ} {D : List String}
    (hnd : D.Nodup) (hc : c0 ∈ D) :
    (D.map (fun c => if c0 = c then w else 0)).sum = w := by
  induction D with
  | nil => cases hc
  | cons d ds ih =>
    rcases List.nodup_cons.mp hnd with ⟨hd, hds⟩
    rcases List.mem_cons.mp hc with rfl | hc
    · have hz : (ds.map (fun c => if c0 = c then w else 0)).sum = 0 := by
        refine List.sum_eq_zero ?_
        intro x hx
        rcases List.mem_map.mp hx with ⟨c, hcmem, rfl⟩
        have hne : c0 ≠ c := fun hb => hd (hb ▸ hcmem)
        simp [hne]
      simp [hz]
    · have hne : c0 ≠ d := fun hb => hd (hb ▸ hc)
      simp only [List.map_cons, List.sum_cons, if_neg hne]
      simpa using ih hds hc

lemma sum_if_zero {c0 : String} {w : ℕ} {D : List String} (h : c0 ∉ D) :
    (D.map (fun c => if c0 = c then w else 0)).sum = 0 := by
  refine List.sum_eq_zero ?_
  intro x hx
  rcases List.mem_map.mp hx with ⟨c, hcmem, rfl⟩
  have hne : c0 ≠ c := fun hb => h (hb ▸ hcmem)
  simp [hne]

/-- Summing group totals over the distinct key values recovers the total
over the ungrouped rows (the SUM statistic of `Statistics_analysis`
partitions its input by the case field). -/
lemma sum_dedup_groups {α : Type} (k : α → String) (v : α → ℕ) (l : List α) :
    (((l.map k).dedup).map
      (fun c => ((l.filter (fun r => k r == c)).map v).sum)).sum
      = (l.map v).sum := by
  induction l with
  | nil => simp
  | cons a t ih =>
    have hfc : ∀ c : String,
        (((a :: t).filter (fun r => k r == c)).map v).sum
          = (if k a = c then v a else 0)
            + ((t.filter (fun r => k r == c)).map v).sum := by
      intro c
      by_cases h : k a = c
      · simp [List.filter_cons, h]
      · simp [List.filter_cons, h]
    by_cases hmem : k a ∈ t.map k
    · rw [List.map_cons, List.dedup_cons_of_mem hmem]
      calc (((t.map k).dedup).map
              (fun c => (((a :: t).filter (fun r => k r == c)).map v).sum)).sum
          = (((t.map k).dedup).map
              (fun c => (if k a = c then v a else 0)
                + ((t.filter (fun r => k r == c)).map v).sum)).sum := by
            simp only [hfc]
        _ = (((t.map k).dedup).map (fun c => if k a = c then v a else 0)).sum
            + (((t.map k).dedup).map
                (fun c => ((t.filter (fun r => k r == c)).map v).sum)).sum := by
            rw [← List.sum_map_add]
        _ = v a + (t.map v).sum := by
            rw [ih, sum_if_single (List.nodup_dedup _) (List.mem_dedup.mpr hmem)]
        _ = ((a :: t).map v).sum := by simp
    · rw [List.map_cons, List.dedup_cons_of_not_mem hmem]
      have hta : t.filter (fun r => k r == k a) = [] := by
        refine List.filter_eq_nil_iff.mpr ?_
        intro r hr hb
        exact hmem (by
          rw [← eq_of_beq hb]
          exact List.mem_map_of_mem k hr)
      calc ((k a :: (t.map k).dedup).map
              (fun c => (((a :: t).filter (fun r => k r == c)).map v).sum)).sum
          = (((a :: t).filter (fun r => k r == k a)).map v).sum
            + (((t.map k).dedup).map
                (fun c => (((a :: t).filter (fun r => k r == c)).map v).sum)).sum := by
            simp
        _ = (v a + 0)
            + ((((t.map k).dedup).map (fun c => if k a = c then v a else 0)).sum
              + (((t.map k).dedup).map
                  (fun c => ((t.filter (fun r => k r == c)).map v).sum)).sum) := by
            rw [hfc (k a), hta]
            simp only [hfc]
            rw [← List.sum_map_add]
            simp
        _ = v a + (t.map v).sum := by
            rw [ih, sum_if_zero (fun h => hmem (List.mem_dedup.mp h))]
            simp
        _ = ((a :: t).map v).sum := by simp

lemma all_not_eq_not_any {α : Type} (l : List α) (p : α → Bool) :
    l.all (fun a => ! p a) = ! l.any p := by
  induction l with
  | nil => rfl
  | cons a t ih => simp [List.all_cons, List.any_cons, Bool.not_or, ih]

/-- The outside-count of the alignment check counts exactly the fire
points lying within no boundary polygon. -/
lemma checkCnt_eq {P B L : Type} (e : GeoEngine P B L) (fires : List (Fire P))
    (bnds : List (Bnd B)) :
    checkCnt e fires bnds
      = (fires.filter (fun f => ! withinAny e bnds f)).length := by
  unfold checkCnt withinAny
  congr 1
  apply List.filter_congr
  intro f _
  exact all_not_eq_not_any bnds (fun b => e.contains b.geom f.geom)

lemma length_filter_not_add {α : Type} (p : α → Bool) (l : List α) :
    (l.filter (fun a => ! p a)).length + (l.filter p).length = l.length := by
  induction l with
  | nil => rfl
  | cons a t ih =>
    cases h : p a
    · simp only [List.filter_cons, h, Bool.not_false, if_true, if_neg]
      simp [h]
      omega
    · simp only [List.filter_cons, h, Bool.not_true]
      simp
      omega

lemma totalCount_eq_sum_sumWithin {P B L : Type} (e : GeoEngine P B L)
    (fires : List (Fire P)) (bnds : List (Bnd B)) :
    totalCount e fires bnds
      = ((sumWithin e fires bnds).map SumRow.pointCount).sum := by
  simp only [totalCount, statTab, List.map_map, Function.comp]
  exact sum_dedup_groups SumRow.country SumRow.pointCount (sumWithin e fires bnds)

lemma sum_sumWithin_eq_sum_bnds {P B L : Type} (e : GeoEngine P B L)
    (fires : List (Fire P)) (bnds : List (Bnd B)) :
    ((sumWithin e fires bnds).map SumRow.pointCount).sum
      = ((bndWithFire e fires bnds).map (fun b => (firesIn e b fires).length)).sum := by
  have hcomp : (SumRow.pointCount ∘ fun b : Bnd B =>
      (⟨b.country, (firesIn e b fires).length,
        listMax ((firesIn e b fires).map Fire.conf)⟩ : SumRow))
      = fun b : Bnd B => (firesIn e b fires).length := rfl
  rw [sumWithin, List.map_map, hcomp]

lemma sum_filter_eq_sum {α : Type} (q : α → Bool) (v : α → ℕ) (l : List α)
    (h : ∀ a ∈ l, q a = false → v a = 0) :
    ((l.filter q).map v).sum = (l.map v).sum := by
  induction l with
  | nil => rfl
  | cons a t ih =>
    have ht : ∀ a ∈ t, q a = false → v a = 0 := fun a ha => h a (List.mem_cons_of_mem _ ha)
    by_cases hq : q a = true
    · simp [List.filter_cons, hq, ih ht]
    · have hq' : q a = false := by
        cases hqa : q a
        · rfl
        · exact absurd hqa hq
      simp [List.filter_cons, hq', h a (List.mem_cons_self a t) hq', ih ht]

lemma sum_count_swap {α β : Type} (R : α → β → Bool) (as : List α) (bs : List β) :
    (as.map (fun a => bs.countP (R a))).sum
      = (bs.map (fun b => as.countP (fun a => R a b))).sum := by
  induction as with
  | nil =>
    refine (List.sum_eq_zero ?_).symm
    intro x hx
    rcases List.mem_map.mp hx with ⟨b, _, rfl⟩
    simp
  | cons a t ih =>
    have hcp : ∀ b : β, (a :: t).countP (fun x => R x b)
        = t.countP (fun x => R x b) + (if R a b then 1 else 0) := by
      intro b
      rw [List.countP_cons]
    calc (( (a :: t).map (fun x => bs.countP (R x))).sum)
        = bs.countP (R a) + (t.map (fun x => bs.countP (R x))).sum := by simp
      _ = bs.countP (R a) + (bs.map (fun b => t.countP (fun x => R x b))).sum := by rw [ih]
      _ = (bs.map (fun b => if R a b then 1 else 0)).sum
          + (bs.map (fun b => t.countP (fun x => R x b))).sum := by
          rw [countP_eq_sum_map]
      _ = (bs.map (fun b => t.countP (fun x => R x b) + (if R a b then 1 else 0))).sum := by
          rw [List.sum_map_add]
          omega
      _ = (bs.map (fun b => (a :: t).countP (fun x => R x b))).sum := by
          simp only [hcp]

lemma withinAny_iff_filter_pos {P B L : Type} (e : GeoEngine P B L)
    (bnds : List (Bnd B)) (f : Fire P) :
    withinAny e bnds f = true
      ↔ 0 < (bnds.filter (fun b => e.contains b.geom f.geom)).length := by
  rw [withinAny, List.any_eq_true, ← List.countP_eq_length_filter, List.countP_pos_iff]

lemma sum_disjoint_eq_within_count {P B L : Type} (e : GeoEngine P B L)
    (fires : List (Fire P)) (bnds : List (Bnd B))
    (hdisj : ∀ f ∈ fires,
      (bnds.filter (fun b => e.contains b.geom f.geom)).length ≤ 1) :
    (fires.map (fun f => (bnds.filter (fun b => e.contains b.geom f.geom)).length)).sum
      = (fires.filter (fun f => withinAny e bnds f)).length := by
  induction fires with
  | nil => rfl
  | cons f t ih =>
    have ht : ∀ g ∈ t, (bnds.filter (fun b => e.contains b.geom g.geom)).length ≤ 1 :=
      fun g hg => hdisj g (List.mem_cons_of_mem _ hg)
    by_cases hw : withinAny e bnds f = true
    · have hpos := (withinAny_iff_filter_pos e bnds f).mp hw
      have hone : (bnds.filter (fun b => e.contains b.geom f.geom)).length = 1 :=
        le_antisymm (hdisj f (List.mem_cons_self f t)) hpos
      rw [List.map_cons, List.sum_cons, hone, ih ht, List.filter_cons]
      simp only [hw, if_true]
      simp [Nat.add_comm]
    · have hzero : (bnds.filter (fun b => e.contains b.geom f.geom)).length = 0 := by
        have := (withinAny_iff_filter_pos e bnds f).not.mp hw
        omega
      have hw' : withinAny e bnds f = false := by
        cases hwa : withinAny e bnds f
        · rfl
        · exact absurd hwa hw
      rw [List.map_cons, List.sum_cons, hzero, ih ht, List.filter_cons]
      simp [hw']

/-! ### Concrete instances used by witnesses and counterexamples -/

/-- A concrete engine over point and polygon tags: a polygon contains a
point exactly when their tags agree; all distances are zero. -/
def demoEngine : GeoEngine Nat Nat Nat where
  contains := fun b p => b == p
  distPP := fun _ _ => 0
  toLine := id
  distPL := fun _ _ => 0

/-- The three fire points of the scenario in the spec: two in Country A
(confidences 70 and 90), one in Country B (confidence 60). -/
def demoFires : List (Fire Nat) :=
  [⟨0, 70, ["a1"]⟩, ⟨0, 90, ["a2"]⟩, ⟨1, 60, ["b1"]⟩]

/-- The two boundary polygons of the scenario in the spec. -/
def demoBnds : List (Bnd Nat) :=
  [⟨"Country A", 0⟩, ⟨"Country B", 1⟩]

/-- An engine whose polygons all overlap: every polygon contains every
point. -/
def overlapEngine : GeoEngine Nat Nat Nat where
  contains := fun _ _ => true
  distPP := fun _ _ => 0
  toLine := id
  distPL := fun _ _ => 0

/-- A single fire point used in counterexamples. -/
def cexFire : Fire Nat := ⟨0, 50, []⟩

/-- One of two overlapping boundary polygons. -/
def cexBndA : Bnd Nat := ⟨"A", 0⟩

/-- The other of two overlapping boundary polygons. -/
def cexBndB : Bnd Nat := ⟨"B", 1⟩

/-! ### Claim C1 -/

/-- Claim C1 (amended): provided each fire point lies within at most one
boundary polygon, the total of the Count column across all rows of the
country-summary report equals the number of input fire points that fall
within at least one boundary polygon, and the outside-count computed by
the alignment check counts exactly the excluded points (the two numbers
partition the input point set). -/
theorem countByCountry_total_and_excluded {P B L : Type} (e : GeoEngine P B L)
    (fires : List (Fire P)) (bnds : List (Bnd B))
    (hdisj : ∀ f ∈ fires,
      (bnds.filter (fun b => e.contains b.geom f.geom)).length ≤ 1) :
    totalCount e fires bnds = (fires.filter (fun f => withinAny e bnds f)).length
    ∧ checkCnt e fires bnds + (fires.filter (fun f => withinAny e bnds f)).length
        = fires.length := by
  constructor
  · rw [totalCount_eq_sum_sumWithin, sum_sumWithin_eq_sum_bnds]
    have hstep1 : ((bndWithFire e fires bnds).map
        (fun b => (firesIn e b fires).length)).sum
        = (bnds.map (fun b => (firesIn e b fires).length)).sum := by
      apply sum_filter_eq_sum
      intro b _ hq
      have hnone : ∀ f ∈ fires, ¬ e.contains b.geom f.geom = true := by
        intro f hf hc
        have : fires.any (fun f => e.contains b.geom f.geom) = true :=
          List.any_eq_true.mpr ⟨f, hf, hc⟩
        rw [hq] at this
        cases this
      unfold firesIn
      rw [List.filter_eq_nil_iff.mpr hnone]
      rfl
    have hstep2 : (bnds.map (fun b => (firesIn e b fires).length)).sum
        = (bnds.map (fun b => fires.countP (fun f => e.contains b.geom f.geom))).sum := by
      congr 1
      apply List.map_congr_left
      intro b _
      rw [firesIn, List.countP_eq_length_filter]
    have hstep3 := sum_count_swap (fun b (f : Fire P) => e.contains b.geom f.geom) bnds fires
    have hstep4 : (fires.map
        (fun f => bnds.countP (fun b => e.contains b.geom f.geom))).sum
        = (fires.map
            (fun f => (bnds.filter (fun b => e.contains b.geom f.geom)).length)).sum := by
      congr 1
      apply List.map_congr_left
      intro f _
      rw [List.countP_eq_length_filter]
    rw [hstep1, hstep2, hstep3, hstep4, sum_disjoint_eq_within_count e fires bnds hdisj]
  · rw [checkCnt_eq]
    exact length_filter_not_add (fun f => withinAny e bnds f) fires

/-- Witness for claim C1 at the concrete scenario inputs. -/
theorem countByCountry_total_and_excluded_witness :
    totalCount demoEngine demoFires demoBnds
        = (demoFires.filter (fun f => withinAny demoEngine demoBnds f)).length
    ∧ checkCnt demoEngine demoFires demoBnds
        + (demoFires.filter (fun f => withinAny demoEngine demoBnds f)).length
        = demoFires.length :=
  countByCountry_total_and_excluded demoEngine demoFires demoBnds (by decide)

/-- Claim C1 as literally stated fails without a disjointness proviso:
with two overlapping boundary polygons both containing the single fire
point, the summary total is 2 while only 1 point falls within at least
one boundary. -/
theorem countByCountry_total_cex :
    totalCount overlapEngine [cexFire] [cexBndA, cexBndB]
      ≠ (([cexFire]).filter
          (fun f => withinAny overlapEngine [cexBndA, cexBndB] f)).length := by
  decide

/-! ### Claim C2 -/

lemma mem_firesIn_iff {P B L : Type} (e : GeoEngine P B L) (b : Bnd B)
    (fires : List (Fire P)) (f : Fire P) :
    f ∈ firesIn e b fires ↔ f ∈ fires ∧ e.contains b.geom f.geom = true := by
  rw [firesIn]
  exact List.mem_filter

lemma mem_bndWithFire_iff {P B L : Type} (e : GeoEngine P B L)
    (fires : List (Fire P)) (bnds : List (Bnd B)) (b : Bnd B) :
    b ∈ bndWithFire e fires bnds
      ↔ b ∈ bnds ∧ ∃ f ∈ fires, e.contains b.geom f.geom = true := by
  rw [bndWithFire, List.mem_filter, List.any_eq_true]

lemma mem_sumWithin_iff {P B L : Type} (e : GeoEngine P B L)
    (fires : List (Fire P)) (bnds : List (Bnd B)) (r : SumRow) :
    r ∈ sumWithin e fires bnds
      ↔ ∃ b ∈ bndWithFire e fires bnds,
          r = ⟨b.country, (firesIn e b fires).length,
                listMax ((firesIn e b fires).map Fire.conf)⟩ := by
  rw [sumWithin]
  constructor
  · intro h
    rcases List.mem_map.mp h with ⟨b, hb, rfl⟩
    exact ⟨b, hb, rfl⟩
  · rintro ⟨b, hb, rfl⟩
    exact List.mem_map.mpr ⟨b, hb, rfl⟩

lemma listMax_isSome_of_ne_nil {l : List ℚ} (h : l ≠ []) :
    ∃ m, listMax l = some m := by
  cases l with
  | nil => exact absurd rfl h
  | cons x xs => exact ⟨xs.foldl max x, rfl⟩

/-- The true maximum of the confidence field over the fire points
contained in some polygon of country `c` (the quantity the spec claims
the summary reports). -/
def trueMaxConf {P B L : Type} (e : GeoEngine P B L) (fires : List (Fire P))
    (bnds : List (Bnd B)) (c : String) : Option ℚ :=
  listMax ((fires.filter (fun f =>
    bnds.any (fun b => (b.country == c) && e.contains b.geom f.geom))).map Fire.conf)

lemma mem_trueMax_list_iff {P B L : Type} (e : GeoEngine P B L)
    (fires : List (Fire P)) (bnds : List (Bnd B)) (c : String) (x : ℚ) :
    x ∈ ((fires.filter (fun f =>
        bnds.any (fun b => (b.country == c) && e.contains b.geom f.geom))).map Fire.conf)
      ↔ ∃ f ∈ fires, f.conf = x
          ∧ ∃ b ∈ bnds, b.country = c ∧ e.contains b.geom f.geom = true := by
  rw [List.mem_map]
  constructor
  · rintro ⟨f, hf, rfl⟩
    rcases List.mem_filter.mp hf with ⟨hmem, hany⟩
    rcases List.any_eq_true.mp hany with ⟨b, hb, hand⟩
    rw [Bool.and_eq_true] at hand
    rcases hand with ⟨hbc, hcont⟩
    exact ⟨f, hmem, rfl, b, hb, eq_of_beq hbc, hcont⟩
  · rintro ⟨f, hf, rfl, b, hb, hbc, hcont⟩
    refine ⟨f, List.mem_filter.mpr ⟨hf, List.any_eq_true.mpr ⟨b, hb, ?_⟩⟩, rfl⟩
    rw [Bool.and_eq_true]
    exact ⟨beq_iff_eq.mpr hbc, hcont⟩

lemma mem_grpMaxes_iff {P B L : Type} (e : GeoEngine P B L)
    (fires : List (Fire P)) (bnds : List (Bnd B)) (c : String) (q : ℚ) :
    q ∈ ((sumWithin e fires bnds).filter
          (fun r => r.country == c)).filterMap SumRow.maxConf
      ↔ ∃ b ∈ bndWithFire e fires bnds, b.country = c
          ∧ listMax ((firesIn e b fires).map Fire.conf) = some q := by
  rw [List.mem_filterMap]
  constructor
  · rintro ⟨r, hr, hmax⟩
    rcases List.mem_filter.mp hr with ⟨hrs, hrc⟩
    rcases (mem_sumWithin_iff e fires bnds r).mp hrs with ⟨b, hb, rfl⟩
    exact ⟨b, hb, eq_of_beq hrc, hmax⟩
  · rintro ⟨b, hb, hbc, hmax⟩
    refine ⟨⟨b.country, (firesIn e b fires).length,
        listMax ((firesIn e b fires).map Fire.conf)⟩, ?_, hmax⟩
    refine List.mem_filter.mpr ⟨(mem_sumWithin_iff e fires bnds _).mpr ⟨b, hb, rfl⟩, ?_⟩
    exact beq_iff_eq.mpr hbc

/-- The MAX-of-MAX statistic of the grouped table agrees with the true
maximum confidence over the fires of each country. -/
lemma statMax_eq {P B L : Type} (e : GeoEngine P B L) (fires : List (Fire P))
    (bnds : List (Bnd B)) (c : String) :
    listMax (((sumWithin e fires bnds).filter
        (fun r => r.country == c)).filterMap SumRow.maxConf)
      = trueMaxConf e fires bnds c := by
  cases hG : listMax (((sumWithin e fires bnds).filter
      (fun r => r.country == c)).filterMap SumRow.maxConf) with
  | none =>
    have hGnil := listMax_eq_none_iff.mp hG
    symm
    rw [trueMaxConf, listMax_eq_none_iff]
    by_contra hT
    rcases List.exists_mem_of_ne_nil _ hT with ⟨x, hx⟩
    rcases (mem_trueMax_list_iff e fires bnds c x).mp hx with
      ⟨f, hf, _, b, hb, hbc, hcont⟩
    have hbwf : b ∈ bndWithFire e fires bnds :=
      (mem_bndWithFire_iff e fires bnds b).mpr ⟨hb, f, hf, hcont⟩
    have hfin : f ∈ firesIn e b fires :=
      (mem_firesIn_iff e b fires f).mpr ⟨hf, hcont⟩
    have hnn : (firesIn e b fires).map Fire.conf ≠ [] := by
      intro hnil
      have : f.conf ∈ (firesIn e b fires).map Fire.conf :=
        List.mem_map_of_mem Fire.conf hfin
      rw [hnil] at this
      cases this
    rcases listMax_isSome_of_ne_nil hnn with ⟨q, hq⟩
    have : q ∈ ((sumWithin e fires bnds).filter
        (fun r => r.country == c)).filterMap SumRow.maxConf :=
      (mem_grpMaxes_iff e fires bnds c q).mpr ⟨b, hbwf, hbc, hq⟩
    rw [hGnil] at this
    cases this
  | some m =>
    rcases listMax_spec.mp hG with ⟨hmG, hubG⟩
    rcases (mem_grpMaxes_iff e fires bnds c m).mp hmG with ⟨b, hbwf, hbc, hqb⟩
    rcases listMax_spec.mp hqb with ⟨hmconf, _⟩
    rcases List.mem_map.mp hmconf with ⟨f, hfin, hfc⟩
    rcases (mem_firesIn_iff e b fires f).mp hfin with ⟨hf, hcont⟩
    have hmemT : m ∈ ((fires.filter (fun f =>
        bnds.any (fun b => (b.country == c) && e.contains b.geom f.geom))).map Fire.conf) :=
      (mem_trueMax_list_iff e fires bnds c m).mpr
        ⟨f, hf, hfc, b, (mem_bndWithFire_iff e fires bnds b).mp hbwf |>.1, hbc, hcont⟩
    have hubT : ∀ x ∈ ((fires.filter (fun f =>
        bnds.any (fun b => (b.country == c) && e.contains b.geom f.geom))).map Fire.conf),
        x ≤ m := by
      intro x hx
      rcases (mem_trueMax_list_iff e fires bnds c x).mp hx with
        ⟨g, hg, hgc, b', hb', hbc', hcont'⟩
      have hbwf' : b' ∈ bndWithFire e fires bnds :=
        (mem_bndWithFire_iff e fires bnds b').mpr ⟨hb', g, hg, hcont'⟩
      have hgin : g ∈ firesIn e b' fires :=
        (mem_firesIn_iff e b' fires g).mpr ⟨hg, hcont'⟩
      have hnn : (firesIn e b' fires).map Fire.conf ≠ [] := by
        intro hnil
        have : g.conf ∈ (firesIn e b' fires).map Fire.conf :=
          List.mem_map_of_mem Fire.conf hgin
        rw [hnil] at this
        cases this
      rcases listMax_isSome_of_ne_nil hnn with ⟨q', hq'⟩
      have hxq : x ≤ q' := by
        rcases listMax_spec.mp hq' with ⟨_, hub⟩
        refine hub x ?_
        rw [← hgc]
        exact List.mem_map_of_mem Fire.conf hgin
      have hq'G : q' ∈ ((sumWithin e fires bnds).filter
          (fun r => r.country == c)).filterMap SumRow.maxConf :=
        (mem_grpMaxes_iff e fires bnds c q').mpr ⟨b', hbwf', hbc', hq'⟩
      exact le_trans hxq (hubG q' hq'G)
    rw [trueMaxConf]
    exact (listMax_spec.mpr ⟨hmemT, hubT⟩).symm

/-- Claim C2: every row of the country-summary table reports as its
maximum-confidence value the true maximum of the confidence field over
the fire points contained in that country's polygon(s); and in the
concrete scenario with 2 fires in Country A (confidences 70 and 90) and
1 fire in Country B (confidence 60), the summary has exactly two rows:
Country A with count 2 and max 90, Country B with count 1 and max 60. -/
theorem countByCountry_max_confidence :
    (∀ (P B L : Type) (e : GeoEngine P B L) (fires : List (Fire P))
        (bnds : List (Bnd B)) (r : StatRow), r ∈ statTab e fires bnds →
        r.maxMax = trueMaxConf e fires bnds r.country)
    ∧ (summaryReport demoEngine demoFires demoBnds ("COUNTRY") ("confidence")
        ("out") ("01012022")).rows
        = [["Country A", "2", "90"], ["Country B", "1", "60"]] := by
  constructor
  · intro P B L e fires bnds r hr
    simp only [statTab] at hr
    rcases List.mem_map.mp hr with ⟨c, _, rfl⟩
    exact statMax_eq e fires bnds c
  · decide

/-- Witness for claim C2: the Country A row of the scenario summary. -/
theorem countByCountry_max_confidence_witness :
    (⟨"Country A", 2, some 90⟩ : StatRow).maxMax
      = trueMaxConf demoEngine demoFires demoBnds
          ((⟨"Country A", 2, some 90⟩ : StatRow).country) :=
  countByCountry_max_confidence.1 Nat Nat Nat demoEngine demoFires demoBnds
    ⟨"Country A", 2, some 90⟩ (by decide)

/-! ### Claim C3 -/

/-- An engine over rational positions: the distance from any point to
any line is the constant 5, which suffices to exercise the selection. -/
def lineEngine : GeoEngine ℚ ℚ ℚ where
  contains := fun _ _ => true
  distPP := fun _ _ => 0
  toLine := id
  distPL := fun _ _ => 5

/-- A fire point at position 0. -/
def lineFire : Fire ℚ := ⟨0, 50, []⟩

/-- A single-point layer. -/
def lineFires : List (Fire ℚ) := [lineFire]

/-- A boundary whose line is at distance exactly 5 from `lineFire`. -/
def lineBnds : List (Bnd ℚ) := [⟨"A", 5⟩]

/-- Claim C3: a fire point appears in the near-border selection exactly
when its planar distance to the nearest boundary line is at most the
threshold (a closed interval, so a point exactly at the threshold is
included), and the default threshold of the selection is 5 (kilometers,
the default unit). -/
theorem nearBorder_iff_minDist_le {P B L : Type} (e : GeoEngine P B L)
    (pnts : List (Fire P)) (bnds : List (Bnd B)) (dist : ℚ) (p : Fire P) (m : ℚ)
    (hp : p ∈ pnts)
    (hmin : listMin ((bnds.map (fun b => e.toLine b.geom)).map
        (fun l => e.distPL p.geom l)) = some m) :
    (p ∈ getFiresWithinDistToBorder e pnts bnds dist ↔ m ≤ dist)
    ∧ getFiresWithinDistToBorder e pnts bnds
        = getFiresWithinDistToBorder e pnts bnds 5 := by
  rcases listMin_spec hmin with ⟨hmem, hlb⟩
  constructor
  · simp only [getFiresWithinDistToBorder]
    rw [List.mem_filter]
    constructor
    · rintro ⟨_, hany⟩
      rcases List.any_eq_true.mp hany with ⟨l, hl, hle⟩
      have hdl : e.distPL p.geom l
          ∈ (bnds.map (fun b => e.toLine b.geom)).map (fun l => e.distPL p.geom l) :=
        List.mem_map_of_mem _ hl
      exact le_trans (hlb _ hdl) (of_decide_eq_true hle)
    · intro hmd
      refine ⟨hp, List.any_eq_true.mpr ?_⟩
      rcases List.mem_map.mp hmem with ⟨l, hl, hlm⟩
      exact ⟨l, hl, decide_eq_true (by rw [hlm]; exact hmd)⟩
  · rfl

/-- Witness for claim C3: the point at exactly the default threshold
distance 5 from the only border line is included (closed interval). -/
theorem nearBorder_iff_minDist_le_witness :
    (lineFire ∈ getFiresWithinDistToBorder lineEngine lineFires lineBnds 5 ↔ (5:ℚ) ≤ 5)
    ∧ getFiresWithinDistToBorder lineEngine lineFires lineBnds
        = getFiresWithinDistToBorder lineEngine lineFires lineBnds 5 :=
  nearBorder_iff_minDist_le lineEngine lineFires lineBnds 5 lineFire 5
    (by decide) (by decide)

/-! ### Claim C4 -/

lemma flatMap_eq_nil_of {α β : Type} {t : List α} {g : α → List β}
    (h : ∀ a ∈ t, g a = []) : t.flatMap g = [] := by
  induction t with
  | nil => rfl
  | cons a t ih =>
    rw [List.flatMap_cons, h a (List.mem_cons_self a t), List.nil_append]
    exact ih (fun b hb => h b (List.mem_cons_of_mem a hb))

/-- Flattening a family of blocks of which only the block of the unique
element with key `i` is nonempty yields exactly that block. -/
lemma flatMap_single {α β : Type} {l : List (Nat × α)} (g : Nat × α → List β)
    {i : Nat} {a : Nat × α} (hnd : (l.map Prod.fst).Nodup) (ha : a ∈ l)
    (hai : a.1 = i) (hz : ∀ b ∈ l, b.1 ≠ i → g b = []) : l.flatMap g = g a := by
  induction l with
  | nil => cases ha
  | cons b t ih =>
    have hnd' : (b.1 :: t.map Prod.fst).Nodup := by simpa using hnd
    rcases List.nodup_cons.mp hnd' with ⟨hb1, ht⟩
    rcases List.mem_cons.mp ha with rfl | hat
    · rw [List.flatMap_cons]
      have htail : t.flatMap g = [] := by
        refine flatMap_eq_nil_of ?_
        intro c hc
        refine hz c (List.mem_cons_of_mem a hc) ?_
        intro hci
        apply hb1
        rw [hai, ← hci]
        exact List.mem_map_of_mem Prod.fst hc
      rw [htail, List.append_nil]
    · have hbne : b.1 ≠ i := by
        intro hbi
        apply hb1
        have hmem : a.1 ∈ t.map Prod.fst := List.mem_map_of_mem Prod.fst hat
        rw [hbi, ← hai]
        exact hmem
      rw [List.flatMap_cons, hz b (List.mem_cons_self b t) hbne, List.nil_append]
      exact ih ht hat (fun c hc hci => hz c (List.mem_cons_of_mem b hc) hci)

/-- The near-table rows with `IN_FID = i` are exactly the pairs of the
`i`-th point with each other point. -/
lemma nearTable_group {P B L : Type} (e : GeoEngine P B L) (pnts : List (Fire P))
    {i : Nat} {p : Fire P} (hip : (i, p) ∈ pnts.enum) :
    (nearTable e pnts).filter (fun r => r.1 == i)
      = (pnts.enum.filter (fun bp => bp.1 ≠ i)).map
          (fun bp => (i, bp.1, e.distPP p.geom bp.2.geom)) := by
  rw [nearTable, List.filter_flatMap]
  have hnd : (pnts.enum.map Prod.fst).Nodup := by
    rw [List.enum_map_fst]
    exact List.nodup_range _
  have hz : ∀ a ∈ pnts.enum, a.1 ≠ i →
      ((pnts.enum.filter (fun bp => bp.1 ≠ a.1)).map
        (fun bp => (a.1, bp.1, e.distPP a.2.geom bp.2.geom))).filter
          (fun r => r.1 == i) = [] := by
    intro a _ hane
    rw [List.filter_map]
    have hinner : (pnts.enum.filter (fun bp => bp.1 ≠ a.1)).filter
        ((fun r : Nat × Nat × ℚ => r.1 == i)
          ∘ (fun bp => (a.1, bp.1, e.distPP a.2.geom bp.2.geom))) = [] := by
      refine List.filter_eq_nil_iff.mpr ?_
      intro bp _
      simp [Function.comp, hane]
    rw [hinner]
    rfl
  rw [flatMap_single _ hnd hip rfl hz]
  rw [List.filter_map]
  have hall : (pnts.enum.filter (fun bp => bp.1 ≠ i)).filter
      ((fun r : Nat × Nat × ℚ => r.1 == i)
        ∘ (fun bp => (i, bp.1, e.distPP p.geom bp.2.geom)))
      = pnts.enum.filter (fun bp => bp.1 ≠ i) := by
    refine List.filter_eq_self.mpr ?_
    intro bp _
    simp [Function.comp]
  rw [hall]

lemma meanNearDist_eq {P B L : Type} (e : GeoEngine P B L) (pnts : List (Fire P))
    {i : Nat} {p : Fire P} (hip : (i, p) ∈ pnts.enum) :
    meanNearDist e pnts i
      = meanOpt ((pnts.enum.filter (fun bp => bp.1 ≠ i)).map
          (fun bp => e.distPP p.geom bp.2.geom)) := by
  rw [meanNearDist, nearTable_group e pnts hip, List.map_map]
  rfl

lemma filter_ne_range_length : ∀ (N i : Nat), i < N →
    ((List.range N).filter (fun n => n ≠ i)).length = N - 1 := by
  intro N
  induction N with
  | zero => intro i hi; cases hi
  | succ N ih =>
    intro i hi
    rw [List.range_succ, List.filter_append, List.length_append]
    by_cases hin : i = N
    · subst hin
      have h1 : (List.range i).filter (fun n => n ≠ i) = List.range i := by
        refine List.filter_eq_self.mpr ?_
        intro n hn
        have : n < i := List.mem_range.mp hn
        simp
        omega
      have h2 : ([i].filter (fun n => n ≠ i)) = [] := by simp
      rw [h1, h2]
      simp
    · have hiN : i < N := by omega
      have h2 : ([N].filter (fun n => n ≠ i)) = [N] := by simp [Ne.symm hin]
      rw [ih i hiN, h2]
      simp
      omega

lemma length_others {α : Type} (pnts : List α) {i : Nat} (hi : i < pnts.length) :
    (pnts.enum.filter (fun bp => bp.1 ≠ i)).length = pnts.length - 1 := by
  have h1 := filter_ne_range_length pnts.length i hi
  rw [← List.enum_map_fst, List.filter_map] at h1
  simpa [Function.comp] using h1

/-- Claim C4: each row of the average-distance report carries the
point's attributes together with its joined mean near distance; for `N ≥ 2`
points that value is the sum of the planar distances to the other points
divided by `N - 1`, and for `N = 1` it is null (undefined), the near
table being empty. -/
theorem avgDist_report_mean {P B L : Type} (e : GeoEngine P B L)
    (pnts : List (Fire P)) (i : Nat) (p : Fire P) (hip : (i, p) ∈ pnts.enum) :
    ((p.attrs, meanNearDist e pnts i) ∈ avgDistReportRows e pnts)
    ∧ (2 ≤ pnts.length →
        meanNearDist e pnts i
          = some ((((pnts.enum.filter (fun bp => bp.1 ≠ i)).map
              (fun bp => e.distPP p.geom bp.2.geom)).sum) / ((pnts.length : ℚ) - 1)))
    ∧ (pnts.length = 1 → meanNearDist e pnts i = none) := by
  have hi : i < pnts.length := (List.mem_enum hip).1
  refine ⟨?_, ?_, ?_⟩
  · rw [avgDistReportRows]
    exact List.mem_map.mpr ⟨(i, p), hip, rfl⟩
  · intro h2
    rw [meanNearDist_eq e pnts hip, meanOpt]
    have hlen : (pnts.enum.filter (fun bp => bp.1 ≠ i)).length = pnts.length - 1 :=
      length_others pnts hi
    have hne : ((pnts.enum.filter (fun bp => bp.1 ≠ i)).map
        (fun bp => e.distPP p.geom bp.2.geom)) ≠ [] := by
      intro hnil
      have hl := congrArg List.length hnil
      rw [List.length_map, hlen] at hl
      simp at hl
      omega
    rw [if_neg hne]
    have hcast : ((((pnts.enum.filter (fun bp => bp.1 ≠ i)).map
        (fun bp => e.distPP p.geom bp.2.geom)).length : ℕ) : ℚ)
        = (pnts.length : ℚ) - 1 := by
      rw [List.length_map, hlen, Nat.cast_sub (le_trans one_le_two h2)]
      norm_num
    rw [hcast]
  · intro h1
    have hlen : (pnts.enum.filter (fun bp => bp.1 ≠ i)).length = 0 := by
      rw [length_others pnts hi, h1]
    have hfil : pnts.enum.filter (fun bp => bp.1 ≠ i) = [] :=
      List.length_eq_zero.mp hlen
    rw [meanNearDist_eq e pnts hip, hfil]
    rfl

/-- An engine over rational positions whose point-to-point distance is
the constant 4 (enough to exercise the mean computation). -/
def avgEngine : GeoEngine ℚ ℚ ℚ where
  contains := fun _ _ => true
  distPP := fun _ _ => 4
  toLine := id
  distPL := fun _ _ => 0

/-- Three points at positions 0, 3 and 6. -/
def avgPnts : List (Fire ℚ) := [⟨0, 1, []⟩, ⟨3, 1, []⟩, ⟨6, 1, []⟩]

/-- Witness for claim C4: the first of three points has mean near
distance (4 + 4) / 2 = 4, and its row is in the report. -/
theorem avgDist_report_mean_witness :
    ((⟨0, 1, []⟩ : Fire ℚ).attrs, meanNearDist avgEngine avgPnts 0)
        ∈ avgDistReportRows avgEngine avgPnts
    ∧ meanNearDist avgEngine avgPnts 0 = some 4 := by
  have h := avgDist_report_mean avgEngine avgPnts 0 ⟨0, 1, []⟩ (by decide)
  refine ⟨h.1, ?_⟩
  rw [h.2.1 (by decide)]
  norm_num [avgPnts, avgEngine, List.enum, List.enumFrom]

/-! ### Claim C5 -/

/-- Claim C5 (amended): a fire point outside every boundary polygon
makes the alignment count positive and the warning line appear in the
logs, the run continues (the summary report is still produced), the
point is excluded from every per-polygon point set of the summary
aggregation, its row still appears in the average-distance report, and
it is not excluded from the near-border selection: it appears there
exactly when it is within the threshold distance of one of the border
lines. -/
theorem outside_point_effects {P B L : Type} (e : GeoEngine P B L)
    (fires : List (Fire P)) (bnds : List (Bnd B))
    (bnd_id conf_lvl : String) (flds : List String) (out_path today : String)
    (f : Fire P) (hf : f ∈ fires)
    (hout : ∀ b ∈ bnds, e.contains b.geom f.geom = false) :
    0 < checkCnt e fires bnds
    ∧ (Level.warning, toString (checkCnt e fires bnds)
          ++ " point(s) fall outside of boundaries!")
        ∈ (getFiresByCountry e fires bnds bnd_id conf_lvl flds out_path today).2
    ∧ summaryReport e fires bnds bnd_id conf_lvl out_path today
        ∈ (getFiresByCountry e fires bnds bnd_id conf_lvl flds out_path today).1
    ∧ (∀ b ∈ bnds, f ∉ firesIn e b fires)
    ∧ f.attrs ∈ (avgDistReportRows e fires).map Prod.fst
    ∧ (f ∈ getFiresWithinDistToBorder e fires (bndWithFire e fires bnds) 5
        ↔ ((bndWithFire e fires bnds).map (fun b => e.toLine b.geom)).any
            (fun l => decide (e.distPL f.geom l ≤ 5)) = true) := by
  have hcnt : 0 < checkCnt e fires bnds := by
    rw [checkCnt, ← List.countP_eq_length_filter, List.countP_pos_iff]
    refine ⟨f, hf, ?_⟩
    refine List.all_eq_true.mpr ?_
    intro b hb
    rw [hout b hb]
    rfl
  refine ⟨hcnt, ?_, ?_, ?_, ?_, ?_⟩
  · simp [getFiresByCountry, warnLines, hcnt]
  · simp [getFiresByCountry]
  · intro b hb hmem
    rcases (mem_firesIn_iff e b fires f).mp hmem with ⟨_, hcont⟩
    rw [hout b hb] at hcont
    cases hcont
  · rcases List.mem_iff_get.mp hf with ⟨n, hn⟩
    have henum : (n.1, f) ∈ fires.enum := by
      refine List.mk_mem_enum_iff_getElem?.mpr ?_
      rw [List.getElem?_eq_getElem n.2]
      rw [← List.get_eq_getElem fires n, hn]
    refine List.mem_map.mpr ⟨(f.attrs, meanNearDist e fires n.1), ?_, rfl⟩
    rw [avgDistReportRows]
    exact List.mem_map.mpr ⟨(n.1, f), henum, rfl⟩
  · simp only [getFiresWithinDistToBorder]
    rw [List.mem_filter]
    constructor
    · exact fun h => h.2
    · exact fun h => ⟨hf, h⟩

/-- An engine whose polygons contain nothing and whose point-line
distances all exceed the threshold. -/
def farEngine : GeoEngine Nat Nat Nat where
  contains := fun _ _ => false
  distPP := fun _ _ => 0
  toLine := id
  distPL := fun _ _ => 10

/-- A boundary layer for the outside-point counterexample. -/
def farBnds : List (Bnd Nat) := [⟨"A", 1⟩]

/-- Claim C5 as literally stated fails: a point outside every boundary
polygon does not necessarily appear in the near-border report — here it
is absent from the selection (no fire-containing boundary exists, and
every distance exceeds the threshold). -/
theorem outside_point_cex :
    (∀ b ∈ farBnds, farEngine.contains b.geom cexFire.geom = false)
    ∧ cexFire ∉ getFiresWithinDistToBorder farEngine [cexFire]
        (bndWithFire farEngine [cexFire] farBnds) 5 := by
  decide

/-- Witness for claim C5 at a concrete outside point. -/
theorem outside_point_effects_witness :
    0 < checkCnt farEngine [cexFire] farBnds
    ∧ (Level.warning, toString (checkCnt farEngine [cexFire] farBnds)
          ++ " point(s) fall outside of boundaries!")
        ∈ (getFiresByCountry farEngine [cexFire] farBnds ("COUNTRY") ("confidence")
            [] ("out") ("01012022")).2
    ∧ summaryReport farEngine [cexFire] farBnds ("COUNTRY") ("confidence")
          ("out") ("01012022")
        ∈ (getFiresByCountry farEngine [cexFire] farBnds ("COUNTRY") ("confidence")
            [] ("out") ("01012022")).1
    ∧ (∀ b ∈ farBnds, cexFire ∉ firesIn farEngine b [cexFire])
    ∧ cexFire.attrs ∈ (avgDistReportRows farEngine [cexFire]).map Prod.fst
    ∧ (cexFire ∈ getFiresWithinDistToBorder farEngine [cexFire]
          (bndWithFire farEngine [cexFire] farBnds) 5
        ↔ ((bndWithFire farEngine [cexFire] farBnds).map
            (fun b => farEngine.toLine b.geom)).any
            (fun l => decide (farEngine.distPL cexFire.geom l ≤ 5)) = true) :=
  outside_point_effects farEngine [cexFire] farBnds ("COUNTRY") ("confidence")
    [] ("out") ("01012022") cexFire (by decide) (by decide)

/-! ### Claim C6 -/

/-- Claim C6 (amended): the CSV writer writes, at the destination path,
a file in the encoding the interpreter picked (the platform's preferred
locale encoding — not necessarily UTF-8, since the script passes no
encoding), whose rows are the header followed by exactly one row per
input record in input order; it overwrites whatever was at the path, and
leaves every other path untouched. -/
theorem writeCSV_content (locale : Encoding) (fs : Files) (path : String)
    (cols : List String) (rows : List (List String)) (q : String) :
    (writeCSV locale fs path cols rows) path = some ⟨locale, cols :: rows⟩
    ∧ (q ≠ path → (writeCSV locale fs path cols rows) q = fs q) := by
  constructor
  · rw [writeCSV, updateFile]
    simp
  · intro hq
    rw [writeCSV, updateFile]
    simp [hq]

/-- Witness for claim C6 at a concrete write over a non-empty file
system (the destination is overwritten, the other path untouched). -/
theorem writeCSV_content_witness :
    (writeCSV Encoding.utf8 emptyFs ("p.csv") (["h"]) [["a"]]) ("p.csv")
        = some ⟨Encoding.utf8, [["h"], ["a"]]⟩
    ∧ (writeCSV Encoding.utf8 emptyFs ("p.csv") (["h"]) [["a"]]) ("q.csv")
        = emptyFs ("q.csv") :=
  ⟨(writeCSV_content Encoding.utf8 emptyFs ("p.csv") (["h"]) [["a"]] ("q.csv")).1,
   (writeCSV_content Encoding.utf8 emptyFs ("p.csv") (["h"]) [["a"]] ("q.csv")).2
     (by decide)⟩

/-- Claim C6 as literally stated fails on the encoding: when the
platform's preferred encoding is not UTF-8 the file is not written in
UTF-8 (the script passes no encoding argument when opening the file). -/
theorem writeCSV_utf8_cex :
    ((writeCSV Encoding.cp1252 emptyFs ("p.csv") (["h"]) []) ("p.csv")).map
        FileContent.enc = some Encoding.cp1252
    ∧ some Encoding.cp1252 ≠ some Encoding.utf8 := by
  constructor
  · rfl
  · decide

/-! ### Claim C7 -/

/-- Claim C7: a `PermissionError` while opening an output CSV makes the
run log the two specific remediation hints and terminate — the failed
report and every later one are not written, while reports already
written stay on disk; any other exception is logged generically with its
message and also terminates the run.  In both cases no write is retried
and the run ends with the final log lines. -/
theorem mainRun_exception_handling (failAt : String → Option Exc)
    (locale : Encoding) (fs : Files) (r1 r2 : ReportSpec)
    (rest : List ReportSpec) (m : String) :
    (failAt r1.path = none → failAt r2.path = some (Exc.permissionError m) →
      mainRun failAt locale fs (r1 :: r2 :: rest)
        = (writeCSV locale fs r1.path r1.cols r1.rows,
           [(Level.error, "PERMISSION ERROR"), (Level.error, m),
            (Level.error, "Ensure all previously created CSVs are closed!"),
            (Level.error,
              "Check that supporting data is not open in another program (ArcGIS Pro/Map/Catalog)!"),
            (Level.info, "Finished run"), (Level.info, sepLine)]))
    ∧ (failAt r1.path = some (Exc.otherExc m) →
      mainRun failAt locale fs (r1 :: r2 :: rest)
        = (fs, [(Level.error, "EXCEPTION OCCURRED"), (Level.error, m),
                (Level.info, "Finished run"), (Level.info, sepLine)])) := by
  constructor
  · intro h1 h2
    simp [mainRun, runReports, h1, h2]
  · intro h1
    simp [mainRun, runReports, h1]

/-- A first report for the exception-handling witness. -/
def c7r1 : ReportSpec := ⟨"r1.csv", ["h"], []⟩

/-- A second report whose path is locked in the witness scenario. -/
def c7r2 : ReportSpec := ⟨"r2.csv", ["h"], []⟩

/-- A failure profile locking the second report's path. -/
def c7failPerm : String → Option Exc :=
  fun p => if p = ("r2.csv") then some (Exc.permissionError ("locked")) else none

/-- A failure profile raising a generic exception at the first path. -/
def c7failOther : String → Option Exc :=
  fun p => if p = ("r1.csv") then some (Exc.otherExc ("boom")) else none

/-- Witness for claim C7: both failure scenarios at concrete inputs. -/
theorem mainRun_exception_handling_witness :
    mainRun c7failPerm Encoding.utf8 emptyFs [c7r1, c7r2]
        = (writeCSV Encoding.utf8 emptyFs c7r1.path c7r1.cols c7r1.rows,
           [(Level.error, "PERMISSION ERROR"), (Level.error, "locked"),
            (Level.error, "Ensure all previously created CSVs are closed!"),
            (Level.error,
              "Check that supporting data is not open in another program (ArcGIS Pro/Map/Catalog)!"),
            (Level.info, "Finished run"), (Level.info, sepLine)])
    ∧ mainRun c7failOther Encoding.utf8 emptyFs [c7r1, c7r2]
        = (emptyFs, [(Level.error, "EXCEPTION OCCURRED"), (Level.error, "boom"),
                     (Level.info, "Finished run"), (Level.info, sepLine)]) :=
  ⟨(mainRun_exception_handling c7failPerm Encoding.utf8 emptyFs c7r1 c7r2 []
      ("locked")).1 (by decide) (by decide),
   (mainRun_exception_handling c7failOther Encoding.utf8 emptyFs c7r1 c7r2 []
      ("boom")).2 (by decide)⟩

/-! ### Claim C8 -/

lemma applyReports_untouched (locale : Encoding) :
    ∀ (rs : List ReportSpec) (fs : Files) (q : String),
      q ∉ rs.map ReportSpec.path → applyReports locale rs fs q = fs q := by
  intro rs
  induction rs with
  | nil => intro fs q _; rfl
  | cons r t ih =>
    intro fs q hq
    have hq1 : q ≠ r.path := by
      intro h
      apply hq
      rw [h]
      exact List.mem_map_of_mem ReportSpec.path (List.mem_cons_self r t)
    have hq2 : q ∉ t.map ReportSpec.path := by
      intro h
      rcases List.mem_map.mp h with ⟨s, hs, hsp⟩
      exact hq (List.mem_map.mpr ⟨s, List.mem_cons_of_mem r hs, hsp⟩)
    show applyReports locale t (writeCSV locale fs r.path r.cols r.rows) q = fs q
    rw [ih _ q hq2, writeCSV, updateFile]
    simp [hq1]

lemma applyReports_agree (locale : Encoding) :
    ∀ (rs : List ReportSpec) (fs fs' : Files),
      (∀ q, q ∉ rs.map ReportSpec.path → fs q = fs' q) →
      applyReports locale rs fs = applyReports locale rs fs' := by
  intro rs
  induction rs with
  | nil =>
    intro fs fs' h
    funext q
    exact h q (by simp)
  | cons r t ih =>
    intro fs fs' h
    show applyReports locale t (writeCSV locale fs r.path r.cols r.rows)
        = applyReports locale t (writeCSV locale fs' r.path r.cols r.rows)
    apply ih
    intro q hq
    rw [writeCSV, updateFile, writeCSV, updateFile]
    by_cases hqr : q = r.path
    · simp [hqr]
    · simp only [if_neg hqr]
      refine h q ?_
      intro hmem
      rcases List.mem_map.mp hmem with ⟨s, hs, hsp⟩
      rcases List.mem_cons.mp hs with rfl | hst
      · exact hqr hsp.symm
      · exact hq (List.mem_map.mpr ⟨s, hst, hsp⟩)

/-- Claim C8: running the pipeline's report writes a second time over
the file system produced by the first run (unchanged inputs, same date,
hence the same report paths and contents) yields exactly the same file
system: each output CSV is overwritten, not appended to, and the second
run's files are identical to the first run's. -/
theorem pipeline_idempotent {P B L : Type} (e : GeoEngine P B L)
    (fires : List (Fire P)) (bnds : List (Bnd B))
    (bnd_id conf_lvl : String) (flds : List String) (out_path today : String)
    (findAvgDist findNearBorder : Bool) (locale : Encoding) (fs : Files) :
    applyReports locale
        ((getFiresByCountry e fires bnds bnd_id conf_lvl flds out_path today
            findAvgDist findNearBorder).1)
        (applyReports locale
          ((getFiresByCountry e fires bnds bnd_id conf_lvl flds out_path today
              findAvgDist findNearBorder).1) fs)
      = applyReports locale
          ((getFiresByCountry e fires bnds bnd_id conf_lvl flds out_path today
              findAvgDist findNearBorder).1) fs := by
  apply applyReports_agree
  intro q hq
  exact applyReports_untouched locale _ fs q hq

/-! ### Claim C9 -/

lemma summaryPath_ne_avgPath (out_path today : String) :
    summaryPath out_path today ≠ avgPath out_path today := by
  intro h
  have hl := congrArg String.length h
  have h1 : ("\\MODIS_fires_countByCountry_" : String).length = 28 := rfl
  have h2 : ("\\MODIS_fires_avgDistToAllFires_" : String).length = 31 := rfl
  simp only [summaryPath, avgPath, String.length_append, h1, h2] at hl
  omega

lemma summaryPath_ne_nearPath (out_path today : String) :
    summaryPath out_path today ≠ nearPath out_path today ("5") ("KILOMETERS") := by
  intro h
  have hl := congrArg String.length h
  have h1 : ("\\MODIS_fires_countByCountry_" : String).length = 28 := rfl
  have h2 : ("\\MODIS_fires_" : String).length = 13 := rfl
  have h3 : ("5" : String).length = 1 := rfl
  have h4 : (pyTitle ("KILOMETERS")).length = 10 := rfl
  have h5 : ("ToBorders_" : String).length = 10 := rfl
  simp only [summaryPath, nearPath, String.length_append, h1, h2, h3, h4, h5] at hl
  omega

lemma avgPath_ne_nearPath (out_path today : String) :
    avgPath out_path today ≠ nearPath out_path today ("5") ("KILOMETERS") := by
  intro h
  have hl := congrArg String.length h
  have h1 : ("\\MODIS_fires_avgDistToAllFires_" : String).length = 31 := rfl
  have h2 : ("\\MODIS_fires_" : String).length = 13 := rfl
  have h3 : ("5" : String).length = 1 := rfl
  have h4 : (pyTitle ("KILOMETERS")).length = 10 := rfl
  have h5 : ("ToBorders_" : String).length = 10 := rfl
  simp only [avgPath, nearPath, String.length_append, h1, h2, h3, h4, h5] at hl
  omega

/-- Claim C9: the country-summary report is produced on every invocation
regardless of the feature flags; the average-distance report is produced
exactly when its flag is set, the near-border report exactly when its
flag is set; with both flags off the pipeline produces exactly one
report. -/
theorem report_flag_gating {P B L : Type} (e : GeoEngine P B L)
    (fires : List (Fire P)) (bnds : List (Bnd B))
    (bnd_id conf_lvl : String) (flds : List String) (out_path today : String)
    (findAvgDist findNearBorder : Bool) :
    (summaryPath out_path today
        ∈ ((getFiresByCountry e fires bnds bnd_id conf_lvl flds out_path today
            findAvgDist findNearBorder).1).map ReportSpec.path)
    ∧ ((avgPath out_path today
        ∈ ((getFiresByCountry e fires bnds bnd_id conf_lvl flds out_path today
            findAvgDist findNearBorder).1).map ReportSpec.path)
        ↔ findAvgDist = true)
    ∧ ((nearPath out_path today ("5") ("KILOMETERS")
        ∈ ((getFiresByCountry e fires bnds bnd_id conf_lvl flds out_path today
            findAvgDist findNearBorder).1).map ReportSpec.path)
        ↔ findNearBorder = true)
    ∧ ((getFiresByCountry e fires bnds bnd_id conf_lvl flds out_path today
          false false).1).length = 1 := by
  have h1 := summaryPath_ne_avgPath out_path today
  have h2 := summaryPath_ne_nearPath out_path today
  have h3 := avgPath_ne_nearPath out_path today
  cases findAvgDist <;> cases findNearBorder <;>
    simp [getFiresByCountry, summaryReport, avgReport, nearReport,
      h1, h2, h3, Ne.symm h1, Ne.symm h2, Ne.symm h3]

/-! ### Claim C10 -/

/-- Claim C10: the near-border selection of the pipeline sees only the
border lines of polygons containing at least one fire point; a fire
point within the threshold of the border of a boundary containing no
fire, but farther than the threshold from every fire-containing
boundary's border, is absent from the near-border report. -/
theorem nearBorder_only_fire_countries {P B L : Type} (e : GeoEngine P B L)
    (fires : List (Fire P)) (bnds : List (Bnd B)) (f : Fire P) (b0 : Bnd B)
    (_hf : f ∈ fires) (_hb0 : b0 ∈ bnds)
    (_hempty : ∀ g ∈ fires, e.contains b0.geom g.geom = false)
    (_hnear0 : e.distPL f.geom (e.toLine b0.geom) ≤ 5)
    (hfar : ∀ b ∈ bndWithFire e fires bnds,
      ¬ e.distPL f.geom (e.toLine b.geom) ≤ 5) :
    f ∉ getFiresWithinDistToBorder e fires (bndWithFire e fires bnds) 5 := by
  intro hmem
  simp only [getFiresWithinDistToBorder] at hmem
  rcases List.mem_filter.mp hmem with ⟨_, hany⟩
  rcases List.any_eq_true.mp hany with ⟨l, hl, hle⟩
  rcases List.mem_map.mp hl with ⟨b, hb, rfl⟩
  exact hfar b hb (of_decide_eq_true hle)

/-- An engine for the C10 witness: the fire sits in country A (tag 0);
the border line of the empty country (tag 1) is at distance 3, every
other line at distance 10. -/
def borderEngine : GeoEngine Nat Nat Nat where
  contains := fun b p => b == p
  distPP := fun _ _ => 0
  toLine := id
  distPL := fun _ l => if l == 1 then 3 else 10

/-- The single fire point of the C10 witness scenario. -/
def borderFire : Fire Nat := ⟨0, 80, []⟩

/-- Two boundaries: an empty one (tag 1) and the fire's country (tag 0). -/
def borderBnds : List (Bnd Nat) := [⟨"Empty", 1⟩, ⟨"A", 0⟩]

/-- Witness for claim C10: the fire is within 3 ≤ 5 of the empty
country's border yet absent from the near-border selection, which only
sees country A's line at distance 10. -/
theorem nearBorder_only_fire_countries_witness :
    borderFire ∉ getFiresWithinDistToBorder borderEngine [borderFire]
        (bndWithFire borderEngine [borderFire] borderBnds) 5 :=
  nearBorder_only_fire_countries borderEngine [borderFire] borderBnds
    borderFire ⟨"Empty", 1⟩ (by decide) (by decide) (by decide) (by decide)
    (by decide)

end FireScript
